import Mathlib

/-!
Verification of `upload_to_channel.py` (telegram book-channel uploader).

Shallow embedding conventions:
* Python `str` values (and raw byte strings) are modelled as `List Char`;
  `str.strip` / `str.lower` are modelled over the ASCII whitespace set and
  basic-latin case folding of Lean's `Char` primitives.
* Filesystem paths are modelled by their file names (the script only ever
  uses `p.stem`, `p.suffix` and `p.name`).
* `sorted(..., key=k)` (Python's stable sort) is modelled by the stable
  `List.insertionSort` with the non-strict key comparison, which produces
  the same output as any stable sort by the same key.
* Network traffic and the filesystem are modelled by explicit environments
  and effect traces.
-/

namespace UploadToChannel

/-- Python strings (and byte strings) are modelled as lists of characters. -/
abbrev Str := List Char

/-- `str.strip()`: drop whitespace from both ends (modelled over the ASCII
whitespace characters recognised by `Char.isWhitespace`). -/
def pstrip (s : Str) : Str :=
  ((s.dropWhile Char.isWhitespace).reverse.dropWhile Char.isWhitespace).reverse

/-- `str.lower()` (basic-latin case folding, per character). -/
def lowerStr (s : Str) : Str := s.map Char.toLower

/-- The reserved cover-marker suffix `".cover"`. -/
def covMarker : Str := ".cover".toList

/-- `normalize_stem` from the source: strip, drop a case-insensitive
`".cover"` suffix, strip again. -/
def normalize_stem (stem : Str) : Str :=
  let normalized := pstrip stem
  let normalized :=
    if covMarker.isSuffixOf (lowerStr normalized) then
      normalized.take (normalized.length - covMarker.length)
    else normalized
  pstrip normalized

/-- Index of the last `'.'` in a name, if any (CPython's `name.rfind('.')`
restricted to the found case). -/
def rfindDot (name : Str) : Option Nat :=
  match name.reverse.findIdx? (fun c => decide (c = '.')) with
  | some j => some (name.length - 1 - j)
  | none => none

/-- `PurePath.suffix` for a file name, per CPython: the part from the last
dot on, provided `0 < i < len(name) - 1`. -/
def path_suffix (name : Str) : Str :=
  match rfindDot name with
  | some i => if 0 < i ∧ i < name.length - 1 then name.drop i else []
  | none => []

/-- `PurePath.stem` for a file name, per CPython. -/
def path_stem (name : Str) : Str :=
  match rfindDot name with
  | some i => if 0 < i ∧ i < name.length - 1 then name.take i else name
  | none => name

/-- Python string comparison: lexicographic by code point, non-strict. -/
def strLeB : Str → Str → Bool
  | [], _ => true
  | _ :: _, [] => false
  | a :: as, b :: bs => if a < b then true else if a = b then strLeB as bs else false

/-- The comparison relation induced by a sort key (Python `key=...`). -/
def keyLe (key : α → Str) (a b : α) : Prop := strLeB (key a) (key b) = true

instance keyLeDecidable (key : α → Str) : DecidableRel (keyLe key) :=
  fun _ _ => inferInstanceAs (Decidable (_ = true))

/-- Python's `sorted(l, key=key)`: a stable sort by the key. Stable insertion
sort produces the same list as any stable sort with the same comparison. -/
def pysorted (key : α → Str) (l : List α) : List α :=
  List.insertionSort (keyLe key) l

/-- The image-extension set from the source. -/
def IMAGE_EXTENSIONS : List Str :=
  [ ".jpg".toList, ".jpeg".toList, ".png".toList, ".webp".toList, ".tif".toList, ".tiff".toList]

/-- The excluded script/metadata file names from the source. -/
def SCRIPT_FILES : List Str :=
  [ "upload_to_channel.py".toList, "config.py".toList, "__pycache__".toList]

/-- The grouping key of a file: `normalize_stem(file_path.stem)`. -/
def nstem (p : Str) : Str := normalize_stem (path_stem p)

/-- The group-sort key of a file: `file_path.suffix.lower()`. -/
def lowsuf (p : Str) : Str := lowerStr (path_suffix p)

/-- `dict.setdefault(stem, []).append(file)`: an insertion-ordered
association list, appending to the existing group when the key is present. -/
def addEntry : List (Str × List Str) → Str → Str → List (Str × List Str)
  | [], k, f => [(k, [f])]
  | (k', g) :: rest, k, f =>
    if k' = k then (k', g ++ [f]) :: rest else (k', g) :: addEntry rest k f

/-- The `by_stem` dictionary of the source, built over the listing. -/
def by_stem (items : List Str) : List (Str × List Str) :=
  items.foldl (fun m p => addEntry m (nstem p) p) []

/-- Dictionary lookup, defaulting to the empty group. -/
def groupOf : List (Str × List Str) → Str → List Str
  | [], _ => []
  | (k', g) :: rest, k => if k' = k then g else groupOf rest k

/-- The keys of the dictionary, in insertion order. -/
def keysOf (m : List (Str × List Str)) : List Str := m.map Prod.fst

/-- `p.suffix.lower() in IMAGE_EXTENSIONS`. -/
def isImage (p : Str) : Bool := decide (lowsuf p ∈ IMAGE_EXTENSIONS)

/-- `build_pairs` from the source, over a directory listing (the names of
the regular files, in enumeration order). -/
def build_pairs (listing : List Str) : List (Str × Str × Str) × List Str :=
  let items := listing.filter (fun p => decide (p ∉ SCRIPT_FILES))
  let m := by_stem items
  let stems := pysorted lowerStr (m.map Prod.fst)
  stems.foldl (fun acc stem =>
    let group := pysorted lowsuf (groupOf m stem)
    let images := group.filter isImage
    let books := group.filter (fun p => !(isImage p))
    match images, books with
    | img :: _, book :: _ => (acc.1 ++ [(stem, img, book)], acc.2)
    | _, _ => (acc.1, acc.2 ++ [stem])) ([], [])

/-- The characters erased by `sanitize_filename`'s first regex,
`[\\/:*?"<>|]`. -/
def forbiddenChar (c : Char) : Bool :=
  decide (c ∈ [ '\\', '/', ':', '*', '?', '\"', '<', '>', '|'])

/-- `re.sub(r"X+", replacement, s)` for a character class `X`: every maximal
run of characters satisfying `p` becomes the single character `r`. The flag
records whether the previous character was part of a run. -/
def collapseRuns (p : Char → Bool) (r : Char) : Str → Bool → Str
  | [], _ => []
  | c :: cs, inRun =>
    if p c then
      (if inRun then collapseRuns p r cs true else r :: collapseRuns p r cs true)
    else c :: collapseRuns p r cs false

/-- `sanitize_filename` from the source: collapse forbidden-character runs to
`'_'`, strip, collapse whitespace runs to `' '`, truncate to 180 chars. -/
def sanitize_filename (name : Str) : Str :=
  let cleaned := collapseRuns forbiddenChar '_' name false
  let cleaned := pstrip cleaned
  let cleaned := collapseRuns Char.isWhitespace ' ' cleaned false
  cleaned.take 180

/-- Result of the image-preparation context manager: either the original
path is yielded unchanged, or a freshly encoded JPEG inside a scoped
temporary directory is yielded (recording its file name, the JPEG quality
and the optimize flag passed to the encoder). -/
inductive PreparedImage
  | original (path : Str)
  | tempJpg (fileName : Str) (quality : Nat) (optimize : Bool)
  deriving DecidableEq

/-- The file name the prepared image is uploaded under. -/
def PreparedImage.name : PreparedImage → Str
  | .original path => path
  | .tempJpg n _ _ => n

/-- The extensions that require conversion, from the source. -/
def conversionExts : List Str := [ ".tif".toList, ".tiff".toList]

/-- `prepared_image_for_upload` from the source: pass through any image
whose lowercased extension is not `.tif`/`.tiff`; otherwise encode a JPEG at
quality 90 (optimize on) named from the sanitized stem, `"cover"` fallback. -/
def prepared_image_for_upload (image_path : Str) (stem : Str) : PreparedImage :=
  if lowerStr (path_suffix image_path) ∉ conversionExts then
    .original image_path
  else
    let safe_name := if sanitize_filename stem = [] then "cover".toList else sanitize_filename stem
    .tempJpg (safe_name ++ ".jpg".toList) 90 true

/-- Carriage return + line feed, the multipart line separator. -/
def CRLF : Str := "\r\n".toList

/-- The table behind `mimetypes.guess_type`, restricted to the extensions
relevant here. Modelled from the spec: the Python `mimetypes` module is an
external collaborator; the spec requires a `Content-Type` guessed from the
file's extension with a generic octet-stream fallback. -/
def mimeTable : List (Str × Str) :=
  [( ".jpg".toList, "image/jpeg".toList),
   ( ".jpeg".toList, "image/jpeg".toList),
   ( ".png".toList, "image/png".toList),
   ( ".webp".toList, "image/webp".toList),
   ( ".tif".toList, "image/tiff".toList),
   ( ".tiff".toList, "image/tiff".toList),
   ( ".pdf".toList, "application/pdf".toList),
   ( ".epub".toList, "application/epub+zip".toList),
   ( ".txt".toList, "text/plain".toList)]

/-- `mimetypes.guess_type(name)[0]`, as an extension-table lookup. -/
def guess_type (name : Str) : Option Str :=
  (mimeTable.find? (fun e => decide (e.1 = lowerStr (path_suffix name)))).map Prod.snd

/-- A file handed to the multipart encoder: form-field name, file name
(`file_path.name`) and raw contents. -/
structure FilePart where
  field : Str
  name : Str
  data : Str
  deriving DecidableEq

/-- The three chunks the source's field loop appends per form field. -/
def fieldChunks (boundary : Str) (kv : Str × Str) : List Str :=
  [ "--".toList ++ boundary ++ CRLF,
    "Content-Disposition: form-data; name=\"".toList ++ kv.1 ++ "\"".toList ++ CRLF ++ CRLF,
    kv.2 ++ CRLF]

/-- The five chunks the source's file loop appends per file. -/
def fileChunks (boundary : Str) (fp : FilePart) : List Str :=
  let mime := (guess_type fp.name).getD ( "application/octet-stream".toList)
  [ "--".toList ++ boundary ++ CRLF,
    "Content-Disposition: form-data; name=\"".toList ++ fp.field ++ "\"; filename=\"".toList
      ++ fp.name ++ "\"".toList ++ CRLF,
    "Content-Type: ".toList ++ mime ++ CRLF ++ CRLF,
    fp.data,
    CRLF]

/-- `encode_multipart` from the source. The boundary is a parameter (the
source draws it from `uuid4`); the body is the join of the accumulated
chunks, and the content type embeds the boundary. -/
def encode_multipart (boundary : Str) (fields : List (Str × Str)) (files : List FilePart) :
    Str × Str :=
  let chunks := fields.foldl (fun cs kv => cs ++ fieldChunks boundary kv) []
  let chunks := files.foldl (fun cs fp => cs ++ fileChunks boundary fp) chunks
  let chunks := chunks ++ [ "--".toList ++ boundary ++ "--".toList ++ CRLF]
  (chunks.flatten, "multipart/form-data; boundary=".toList ++ boundary)

/-- Decimal rendering of a natural number. -/
def natStr (n : Nat) : Str := (toString n).toList

/-- `format_size` from the source renders `f"{n/(1024*1024):.2f} MB"`.
The binary floating-point division and formatting are modelled by exact
rational rounding to two decimals (round half away from zero). -/
def format_size (n : Nat) : Str :=
  let cents := (n * 100 + 524288) / 1048576
  natStr (cents / 100) ++ ".".toList ++
    (if cents % 100 < 10 then "0".toList ++ natStr (cents % 100) else natStr (cents % 100)) ++
    " MB".toList

/-- The error taxonomy of a single pair: `TelegramRequestTooLargeError`
versus every other `Exception` (`RuntimeError` and friends). -/
inductive TgError
  | tooLarge (msg : Str)
  | other (msg : Str)
  deriving DecidableEq

/-- The parsed JSON payload of a Telegram response: whether `payload.get("ok")`
is truthy, plus an opaque rendering of the rest. -/
structure Payload where
  ok : Bool
  raw : Str
  deriving DecidableEq

/-- What the HTTP layer hands back for one `urlopen` call: a parsed payload,
an `HTTPError` with status code and body, or a transport-level `URLError`. -/
inductive TgResponse
  | success (p : Payload)
  | httpError (code : Nat) (body : Str)
  | urlError (msg : Str)
  deriving DecidableEq

/-- The response handling of `telegram_call` from the source: HTTP 413
becomes the distinct too-large error, any other HTTP error and any transport
error become generic errors, and a non-`ok` payload becomes an API error. -/
def telegram_call (resp : TgResponse) : Except TgError Payload :=
  match resp with
  | .httpError code details =>
    if code = 413 then
      .error (.tooLarge ( "HTTP ".toList ++ natStr code ++ ": ".toList ++ details))
    else
      .error (.other ( "HTTP ".toList ++ natStr code ++ ": ".toList ++ details))
  | .urlError m => .error (.other ( "Network error: ".toList ++ m))
  | .success payload =>
    if payload.ok then .ok payload
    else .error (.other ( "Telegram API error: ".toList ++ payload.raw))

/-- The configuration surface consumed by the orchestrator (from
`config.py`, an external collaborator). -/
structure Config where
  maxMB : Nat

/-- `MAX_FILE_SIZE_BYTES = MAX_FILE_SIZE_MB * 1024 * 1024`. -/
def max_file_size_bytes (cfg : Config) : Nat := cfg.maxMB * 1024 * 1024

/-- The environment of one pair's upload: the sizes `stat` reports, and the
responses the network returns for the two calls (in call order). -/
structure PairEnv where
  imagePath : Str
  bookName : Str
  bookSize : Nat
  preparedImageSize : Nat
  photoResponse : TgResponse
  docResponse : TgResponse

/-- Observable side effects of one pair's upload: opening/converting the
image, and issuing an API call. -/
inductive Effect
  | prepImage (path : Str)
  | apiCall (method : Str)
  deriving DecidableEq

/-- `upload_pair` from the source: pre-flight size check on the book, image
preparation, size check on the prepared image, then `sendPhoto` followed by
`sendDocument`. Returns the outcome together with the effect trace. -/
def upload_pair (cfg : Config) (stem : Str) (env : PairEnv) :
    Except TgError Unit × List Effect :=
  if env.bookSize > max_file_size_bytes cfg then
    (.error (.tooLarge ( "Book is too large: ".toList ++ env.bookName ++ " (".toList
        ++ format_size env.bookSize ++ ")".toList)), [])
  else
    let ready := prepared_image_for_upload env.imagePath stem
    let tr := [Effect.prepImage env.imagePath]
    if env.preparedImageSize > max_file_size_bytes cfg then
      (.error (.tooLarge ( "Image is too large: ".toList ++ ready.name ++ " (".toList
          ++ format_size env.preparedImageSize ++ ")".toList)), tr)
    else
      match telegram_call env.photoResponse with
      | .error e => (.error e, tr ++ [Effect.apiCall ( "sendPhoto".toList)])
      | .ok _ =>
        match telegram_call env.docResponse with
        | .error e =>
          (.error e,
           tr ++ [Effect.apiCall ( "sendPhoto".toList), Effect.apiCall ( "sendDocument".toList)])
        | .ok _ =>
          (.ok (),
           tr ++ [Effect.apiCall ( "sendPhoto".toList), Effect.apiCall ( "sendDocument".toList)])

/-- The running tally of `main`: outcome counters plus the accumulated
skip-report lines. -/
structure RunStats where
  uploaded : Nat
  too_large : Nat
  failed : Nat
  details : List Str
  deriving DecidableEq

/-- One iteration of `main`'s loop: classify the pair's outcome.
A too-large error also appends `f"{stem} | {reason}"` to the report lines. -/
def processPair (cfg : Config) (st : RunStats) (p : Str × PairEnv) : RunStats :=
  match (upload_pair cfg p.1 p.2).1 with
  | .ok _ => { st with uploaded := st.uploaded + 1 }
  | .error (.tooLarge reason) =>
    { st with
      too_large := st.too_large + 1
      details := st.details ++ [p.1 ++ " | ".toList ++ reason] }
  | .error (.other _) => { st with failed := st.failed + 1 }

/-- The empty tally at the start of the run. -/
def initialStats : RunStats := ⟨0, 0, 0, []⟩

/-- `main`'s loop over the pairs, in builder order. -/
def main_loop (cfg : Config) (pairs : List (Str × PairEnv)) : RunStats :=
  pairs.foldl (processPair cfg) initialStats

/-- The text written to the skip report:
`"\n".join(too_large_details) + "\n"`, UTF-8. -/
def report_text (details : List Str) : Str :=
  List.intercalate ( "\n".toList) details ++ "\n".toList

/-- The report file after the run: `write_text` overwrites it with the
report text when any too-large pair was recorded, otherwise the file keeps
whatever content it had before the run. -/
def final_report (cfg : Config) (pairs : List (Str × PairEnv)) (prior : Option Str) :
    Option Str :=
  let st := main_loop cfg pairs
  if st.details = [] then prior else some (report_text st.details)

/-- The outcome of one pair, as classified at `main`'s per-pair boundary. -/
def outcomeOf (cfg : Config) (p : Str × PairEnv) : Except TgError Unit :=
  (upload_pair cfg p.1 p.2).1

/-- Did the pair upload successfully? -/
def isUploadedOutcome (cfg : Config) (p : Str × PairEnv) : Bool :=
  match outcomeOf cfg p with
  | .ok _ => true
  | .error _ => false

/-- Was the pair skipped as too large? -/
def isTooLargeOutcome (cfg : Config) (p : Str × PairEnv) : Bool :=
  match outcomeOf cfg p with
  | .error (.tooLarge _) => true
  | _ => false

/-- Did the pair fail with a non-size error? -/
def isFailedOutcome (cfg : Config) (p : Str × PairEnv) : Bool :=
  match outcomeOf cfg p with
  | .error (.other _) => true
  | _ => false

/-- The skip-report line a pair contributes, if any. -/
def lineOf (cfg : Config) (p : Str × PairEnv) : Option Str :=
  match outcomeOf cfg p with
  | .error (.tooLarge r) => some (p.1 ++ " | ".toList ++ r)
  | _ => none

/-- Spec-side rendering (refinement target), following the spec's words: a
form-field part is the boundary line, a `Content-Disposition` header naming
the field, a blank line, and the raw value. -/
def specFieldPart (b : Str) (kv : Str × Str) : Str :=
  "--".toList ++ b ++ CRLF
    ++ "Content-Disposition: form-data; name=\"".toList ++ kv.1 ++ "\"".toList ++ CRLF ++ CRLF
    ++ kv.2 ++ CRLF

/-- Spec-side rendering (refinement target), following the spec's words: a
file part additionally declares `filename=<basename>` and a `Content-Type`
guessed from the extension (octet-stream fallback), followed by the raw
file bytes. -/
def specFilePart (b : Str) (fp : FilePart) : Str :=
  "--".toList ++ b ++ CRLF
    ++ "Content-Disposition: form-data; name=\"".toList ++ fp.field
      ++ "\"; filename=\"".toList ++ fp.name ++ "\"".toList ++ CRLF
    ++ "Content-Type: ".toList
      ++ ((guess_type fp.name).getD ( "application/octet-stream".toList)) ++ CRLF ++ CRLF
    ++ fp.data ++ CRLF

/-- Spec-side closing boundary marker. -/
def specClosing (b : Str) : Str := "--".toList ++ b ++ "--".toList ++ CRLF

/-- Spec-side multipart body: exactly one part per field, then one per
file, terminated by the closing marker. -/
def specMultipartBody (b : Str) (fields : List (Str × Str)) (files : List FilePart) : Str :=
  (fields.map (specFieldPart b)).flatten ++ (files.map (specFilePart b)).flatten
    ++ specClosing b

/-- The directory contents of the spec's pair-builder example. -/
def sampleFiles : List Str :=
  [ "Alpha.jpg".toList, "Alpha.epub".toList, "Beta.cover.png".toList,
    "Beta.pdf".toList, "Gamma.epub".toList]

/-! ### Helper lemmas about whitespace, `pstrip` and the cover suffix -/

theorem ws_char_cases {c : Char} (h : c.isWhitespace = true) :
    c = ' ' ∨ c = '\t' ∨ c = '\r' ∨ c = '\n' := by
  simpa [Char.isWhitespace, or_assoc] using h

theorem toLower_of_ws {c : Char} (h : c.isWhitespace = true) : c.toLower = c := by
  rcases ws_char_cases h with h | h | h | h <;> subst h <;> decide

/-- Every character produced by `head?` of a whitespace-`dropWhile` is
non-whitespace. -/
theorem headOk_dropWhile (l : Str) :
    ∀ c, (l.dropWhile Char.isWhitespace).head? = some c → c.isWhitespace = false := by
  induction l with
  | nil => intro c h; simp [List.dropWhile] at h
  | cons a t ih =>
    intro c h
    rw [List.dropWhile_cons] at h
    by_cases ha : a.isWhitespace = true
    · rw [if_pos ha] at h
      exact ih c h
    · rw [if_neg ha] at h
      simp only [List.head?_cons, Option.some.injEq] at h
      subst h
      exact Bool.not_eq_true _ ▸ ha

theorem dropWhile_eq_self_of_headOk {l : Str}
    (h : ∀ c, l.head? = some c → c.isWhitespace = false) :
    l.dropWhile Char.isWhitespace = l := by
  cases l with
  | nil => rfl
  | cons a t =>
    rw [List.dropWhile_cons, if_neg]
    simp [h a rfl]

theorem pstrip_headOk (s : Str) :
    ∀ c, (pstrip s).head? = some c → c.isWhitespace = false := by
  intro c hc
  unfold pstrip at hc
  rw [List.head?_reverse] at hc
  obtain ⟨u, hu⟩ :=
    List.dropWhile_suffix (l := (s.dropWhile Char.isWhitespace).reverse) Char.isWhitespace
  have h1 : (s.dropWhile Char.isWhitespace).reverse.getLast? = some c := by
    rw [← hu, List.getLast?_append, hc, Option.or_some]
  rw [List.getLast?_reverse] at h1
  exact headOk_dropWhile s c h1

theorem pstrip_getLastOk (s : Str) :
    ∀ c, (pstrip s).getLast? = some c → c.isWhitespace = false := by
  intro c hc
  unfold pstrip at hc
  rw [List.getLast?_reverse] at hc
  exact headOk_dropWhile _ c hc

theorem pstrip_idem (s : Str) : pstrip (pstrip s) = pstrip s := by
  have h1 : (pstrip s).dropWhile Char.isWhitespace = pstrip s :=
    dropWhile_eq_self_of_headOk (pstrip_headOk s)
  have h2 : (pstrip s).reverse.dropWhile Char.isWhitespace = (pstrip s).reverse := by
    apply dropWhile_eq_self_of_headOk
    intro c hc
    rw [List.head?_reverse] at hc
    exact pstrip_getLastOk s c hc
  have e : pstrip (pstrip s) =
      (((pstrip s).dropWhile Char.isWhitespace).reverse.dropWhile Char.isWhitespace).reverse :=
    rfl
  rw [e, h1, h2, List.reverse_reverse]

/-- A case-insensitive `".cover"` suffix survives dropping leading
whitespace (its own characters are not whitespace). -/
theorem cov_suffix_dropWhile :
    ∀ {l : Str}, covMarker <:+ lowerStr l →
      covMarker <:+ lowerStr (l.dropWhile Char.isWhitespace) := by
  intro l
  induction l with
  | nil =>
    intro h
    exact absurd (List.suffix_nil.mp (by simpa [lowerStr] using h)) (by decide)
  | cons a t ih =>
    intro h
    have h' : covMarker <:+ Char.toLower a :: lowerStr t := by
      simpa [lowerStr] using h
    rw [List.dropWhile_cons]
    by_cases ha : a.isWhitespace = true
    · rw [if_pos ha]
      rcases List.suffix_cons_iff.mp h' with hEq | hSuf
      · exfalso
        have h0 : covMarker.head? = some '.' := rfl
        rw [hEq] at h0
        simp only [List.head?_cons, Option.some.injEq] at h0
        rw [toLower_of_ws ha] at h0
        subst h0
        exact absurd ha (by decide)
      · exact ih hSuf
    · rw [if_neg ha]
      exact h

/-- The last character of a string carrying the cover suffix lowers to
`'r'`, hence is not whitespace. -/
theorem cov_suffix_getLast {l : Str} (h : covMarker <:+ lowerStr l) :
    ∃ c, l.getLast? = some c ∧ c.isWhitespace = false := by
  obtain ⟨u, hu⟩ := h
  have h1 : (lowerStr l).getLast? = some 'r' := by
    rw [← hu, List.getLast?_append]
    rfl
  rw [lowerStr, List.getLast?_map] at h1
  cases hc : l.getLast? with
  | none => rw [hc] at h1; simp at h1
  | some c =>
    rw [hc] at h1
    simp only [Option.map_some', Option.some.injEq] at h1
    refine ⟨c, rfl, ?_⟩
    by_cases hw : c.isWhitespace = true
    · rw [toLower_of_ws hw] at h1
      subst h1
      exact absurd hw (by decide)
    · simp only [Bool.not_eq_true] at hw
      exact hw

/-- On a stem carrying the (case-insensitive) cover suffix, `pstrip` only
drops leading whitespace, and the suffix survives it. -/
theorem cov_suffix_pstrip {s : Str} (h : covMarker <:+ lowerStr s) :
    pstrip s = s.dropWhile Char.isWhitespace ∧ covMarker <:+ lowerStr (pstrip s) := by
  have hca : covMarker <:+ lowerStr (s.dropWhile Char.isWhitespace) := cov_suffix_dropWhile h
  obtain ⟨c, hc, hcw⟩ := cov_suffix_getLast hca
  have hrev : (s.dropWhile Char.isWhitespace).reverse.dropWhile Char.isWhitespace =
      (s.dropWhile Char.isWhitespace).reverse := by
    apply dropWhile_eq_self_of_headOk
    intro d hd
    rw [List.head?_reverse, hc] at hd
    cases hd
    exact hcw
  have hps : pstrip s = s.dropWhile Char.isWhitespace := by
    unfold pstrip
    rw [hrev, List.reverse_reverse]
  exact ⟨hps, hps ▸ hca⟩

/-- C1 counterexample: the claimed idempotence fails at the stem
`"x.cover.cover"`, whose first normalization still ends in the cover marker:
normalizing once yields `"x.cover"`, normalizing twice yields `"x"`. -/
theorem normalize_stem_not_idempotent :
    normalize_stem (normalize_stem ( "x.cover.cover".toList)) ≠
      normalize_stem ( "x.cover.cover".toList) := by decide

/-- C1 (amended): `normalize_stem` is idempotent on every stem whose
normalization does not itself end (case-insensitively) in `".cover"`; and on
every stem that case-insensitively ends with the cover marker, it removes
exactly that six-character suffix, with surrounding-whitespace trimming
before and after the removal. -/
theorem normalize_stem_spec (stem : Str) :
    (covMarker.isSuffixOf (lowerStr (normalize_stem stem)) = false →
      normalize_stem (normalize_stem stem) = normalize_stem stem) ∧
    (covMarker.isSuffixOf (lowerStr stem) = true →
      normalize_stem stem =
        pstrip ((pstrip stem).take ((pstrip stem).length - covMarker.length))) := by
  constructor
  · intro h
    have hidem : pstrip (normalize_stem stem) = normalize_stem stem := pstrip_idem _
    have e : normalize_stem (normalize_stem stem) =
        pstrip (if covMarker.isSuffixOf (lowerStr (pstrip (normalize_stem stem))) then
            (pstrip (normalize_stem stem)).take
              ((pstrip (normalize_stem stem)).length - covMarker.length)
          else pstrip (normalize_stem stem)) := rfl
    rw [e, hidem, h]
    simpa using hidem
  · intro h
    have h' : covMarker <:+ lowerStr stem := by
      have := List.isSuffixOf_iff_suffix.mp (show covMarker.isSuffixOf (lowerStr stem) from h)
      exact this
    obtain ⟨hps, hcov⟩ := cov_suffix_pstrip h'
    have hcond : covMarker.isSuffixOf (lowerStr (pstrip stem)) = true :=
      List.isSuffixOf_iff_suffix.mpr hcov
    have e : normalize_stem stem =
        pstrip (if covMarker.isSuffixOf (lowerStr (pstrip stem)) then
            (pstrip stem).take ((pstrip stem).length - covMarker.length)
          else pstrip stem) := rfl
    rw [e, hcond]
    simp

/-- C1 witness: at the concrete stem `"a.cover"` both amended parts apply:
its normalization `"a"` no longer carries the marker, so normalizing twice
equals normalizing once; and the marker stem has exactly the suffix
removed. -/
theorem normalize_stem_spec_witness :
    normalize_stem (normalize_stem ( "a.cover".toList)) = normalize_stem ( "a.cover".toList) ∧
    normalize_stem ( "a.cover".toList) =
      pstrip ((pstrip ( "a.cover".toList)).take
        ((pstrip ( "a.cover".toList)).length - covMarker.length)) :=
  ⟨(normalize_stem_spec ( "a.cover".toList)).1 (by decide),
   (normalize_stem_spec ( "a.cover".toList)).2 (by decide)⟩

/-! ### C6: the image preparer -/

/-- C6: an image whose case-folded extension is outside the conversion set
is yielded unchanged with no temporary file; a `.tif`/`.tiff` image becomes
a temp-dir JPEG at quality 90 (optimize on) named from the sanitized stem
(with the `"cover"` placeholder when the sanitization is empty), and the
sanitized stem is truncated to at most 180 characters. -/
theorem prepared_image_for_upload_spec (image_path stem : Str) :
    (lowerStr (path_suffix image_path) ∉ conversionExts →
      prepared_image_for_upload image_path stem = .original image_path) ∧
    (lowerStr (path_suffix image_path) ∈ conversionExts →
      prepared_image_for_upload image_path stem =
        .tempJpg ((if sanitize_filename stem = [] then "cover".toList
            else sanitize_filename stem) ++ ".jpg".toList) 90 true) ∧
    (sanitize_filename stem).length ≤ 180 := by
  refine ⟨fun h => ?_, fun h => ?_, ?_⟩
  · simp [prepared_image_for_upload, h]
  · simp [prepared_image_for_upload, h]
  · rw [sanitize_filename]
    simp only [List.length_take]
    exact Nat.min_le_left 180 _

/-- C6 witness: a `.png` passes through unchanged; an `.tif` with stem
`"s"` becomes the temp JPEG `"s.jpg"` at quality 90. -/
theorem prepared_image_for_upload_spec_witness :
    prepared_image_for_upload ( "a.png".toList) ( "s".toList) =
      .original ( "a.png".toList) ∧
    prepared_image_for_upload ( "a.tif".toList) ( "s".toList) =
      .tempJpg ( "s.jpg".toList) 90 true := by
  constructor
  · exact (prepared_image_for_upload_spec ( "a.png".toList) ( "s".toList)).1 (by decide)
  · exact ((prepared_image_for_upload_spec ( "a.tif".toList) ( "s".toList)).2.1
      (by decide)).trans (by decide)

/-! ### C2: the pre-flight document size check -/

/-- C2: when the document's size exceeds the configured maximum,
`upload_pair` fails immediately with the too-large error whose message
carries the document's file name and the human-readable size, with an empty
effect trace: the image is never prepared or read and no API call is
issued. -/
theorem upload_pair_preflight_too_large (cfg : Config) (stem : Str) (env : PairEnv)
    (h : env.bookSize > max_file_size_bytes cfg) :
    upload_pair cfg stem env =
      (.error (.tooLarge ( "Book is too large: ".toList ++ env.bookName ++ " (".toList
          ++ format_size env.bookSize ++ ")".toList)), []) ∧
    env.bookName <:+: ( "Book is too large: ".toList ++ env.bookName ++ " (".toList
          ++ format_size env.bookSize ++ ")".toList) ∧
    format_size env.bookSize <:+: ( "Book is too large: ".toList ++ env.bookName
          ++ " (".toList ++ format_size env.bookSize ++ ")".toList) := by
  refine ⟨?_, ?_, ?_⟩
  · rw [upload_pair]
    rw [if_pos h]
  · exact ⟨ "Book is too large: ".toList, " (".toList ++ format_size env.bookSize
      ++ ")".toList, by simp only [List.append_assoc]⟩
  · exact ⟨ "Book is too large: ".toList ++ env.bookName ++ " (".toList, ")".toList,
      by simp only [List.append_assoc]⟩

/-- C2 witness: a 2 MiB book against a 1 MB limit is rejected up front with
an empty effect trace. -/
theorem upload_pair_preflight_too_large_witness :
    upload_pair (Config.mk 1) ( "s".toList)
        (PairEnv.mk ( "i.png".toList) ( "b.pdf".toList) 2097152 10
          (.success (Payload.mk true [])) (.success (Payload.mk true []))) =
      (.error (.tooLarge ( "Book is too large: ".toList ++ "b.pdf".toList ++ " (".toList
          ++ format_size 2097152 ++ ")".toList)), []) :=
  (upload_pair_preflight_too_large (Config.mk 1) ( "s".toList)
    (PairEnv.mk ( "i.png".toList) ( "b.pdf".toList) 2097152 10
      (.success (Payload.mk true [])) (.success (Payload.mk true []))) (by decide)).1

/-! ### The orchestration loop: closed form -/

theorem processPair_eq (cfg : Config) (st : RunStats) (p : Str × PairEnv) :
    processPair cfg st p =
      match outcomeOf cfg p with
      | .ok _ => { st with uploaded := st.uploaded + 1 }
      | .error (.tooLarge reason) =>
        { st with
          too_large := st.too_large + 1
          details := st.details ++ [p.1 ++ " | ".toList ++ reason] }
      | .error (.other _) => { st with failed := st.failed + 1 } := rfl

theorem foldl_processPair_spec (cfg : Config) (pairs : List (Str × PairEnv)) :
    ∀ st : RunStats,
      List.foldl (processPair cfg) st pairs =
        RunStats.mk (st.uploaded + pairs.countP (isUploadedOutcome cfg))
          (st.too_large + pairs.countP (isTooLargeOutcome cfg))
          (st.failed + pairs.countP (isFailedOutcome cfg))
          (st.details ++ pairs.filterMap (lineOf cfg)) := by
  induction pairs with
  | nil => intro st; simp
  | cons p t ih =>
    intro st
    rw [List.foldl_cons, ih]
    rcases ho : outcomeOf cfg p with e | u
    · rcases e with r | r <;>
        simp [processPair_eq, ho, isUploadedOutcome, isTooLargeOutcome, isFailedOutcome,
          lineOf, List.countP_cons, List.filterMap_cons, Nat.add_comm, Nat.add_assoc,
          Nat.add_left_comm, List.append_assoc]
    · simp [processPair_eq, ho, isUploadedOutcome, isTooLargeOutcome, isFailedOutcome,
        lineOf, List.countP_cons, List.filterMap_cons, Nat.add_comm, Nat.add_assoc,
        Nat.add_left_comm, List.append_assoc]

theorem main_loop_spec (cfg : Config) (pairs : List (Str × PairEnv)) :
    main_loop cfg pairs =
      RunStats.mk (pairs.countP (isUploadedOutcome cfg)) (pairs.countP (isTooLargeOutcome cfg))
        (pairs.countP (isFailedOutcome cfg)) (pairs.filterMap (lineOf cfg)) := by
  rw [main_loop, foldl_processPair_spec]
  simp [initialStats]

theorem countP_outcomes_partition (cfg : Config) (pairs : List (Str × PairEnv)) :
    pairs.countP (isUploadedOutcome cfg) + pairs.countP (isTooLargeOutcome cfg)
        + pairs.countP (isFailedOutcome cfg) = pairs.length ∧
    (pairs.filterMap (lineOf cfg)).length = pairs.countP (isTooLargeOutcome cfg) := by
  induction pairs with
  | nil => simp
  | cons p t ih =>
    obtain ⟨ih1, ih2⟩ := ih
    rcases ho : outcomeOf cfg p with e | u
    · rcases e with r | r <;>
        · simp [isUploadedOutcome, isTooLargeOutcome, isFailedOutcome, lineOf, ho,
            List.countP_cons, List.filterMap_cons]
          omega
    · simp [isUploadedOutcome, isTooLargeOutcome, isFailedOutcome, lineOf, ho,
        List.countP_cons, List.filterMap_cons]
      omega

/-! ### C10: run-level counting invariant and strictness of the size check -/

/-- C10: over any run, `uploaded + too_large + failed` equals the number of
pairs and the accumulated report lines equal the too-large count; and a
document whose size equals the configured maximum passes the pre-flight
check (the comparison is strict), so processing reaches the image step. -/
theorem run_counting_invariant (cfg : Config) (pairs : List (Str × PairEnv)) :
    (main_loop cfg pairs).uploaded + (main_loop cfg pairs).too_large
        + (main_loop cfg pairs).failed = pairs.length ∧
    (main_loop cfg pairs).details.length = (main_loop cfg pairs).too_large ∧
    (∀ stem env, env.bookSize = max_file_size_bytes cfg →
      (upload_pair cfg stem env).2.head? = some (Effect.prepImage env.imagePath)) := by
  obtain ⟨h1, h2⟩ := countP_outcomes_partition cfg pairs
  refine ⟨?_, ?_, ?_⟩
  · rw [main_loop_spec]
    exact h1
  · rw [main_loop_spec]
    exact h2
  · intro stem env h
    have h' : ¬ env.bookSize > max_file_size_bytes cfg := by omega
    by_cases hi : env.preparedImageSize > max_file_size_bytes cfg
    · simp [upload_pair, h', hi]
    · rcases hp : telegram_call env.photoResponse with e | p
      · simp [upload_pair, h', hi, hp]
      · rcases hd : telegram_call env.docResponse with e | q
        · simp [upload_pair, h', hi, hp, hd]
        · simp [upload_pair, h', hi, hp, hd]

/-- C10 witness: with a 1 MB limit, a book of exactly 1048576 bytes passes
the pre-flight check and the trace reaches the image-preparation step. -/
theorem run_counting_invariant_witness :
    (upload_pair (Config.mk 1) ( "s".toList)
        (PairEnv.mk ( "i.png".toList) ( "b.pdf".toList) 1048576 10
          (.success (Payload.mk true [])) (.success (Payload.mk true [])))).2.head? =
      some (Effect.prepImage ( "i.png".toList)) :=
  (run_counting_invariant (Config.mk 1) []).2.2 ( "s".toList)
    (PairEnv.mk ( "i.png".toList) ( "b.pdf".toList) 1048576 10
      (.success (Payload.mk true [])) (.success (Payload.mk true []))) (by decide)

/-! ### C8: the skip report -/

theorem report_text_eq (l : List Str) (h : l ≠ []) :
    report_text l = (l.map (fun s => s ++ "\n".toList)).flatten := by
  induction l with
  | nil => cases h rfl
  | cons x t ih =>
    cases t with
    | nil => simp [report_text, List.intercalate]
    | cons y u =>
      have e : List.intercalate ( "\n".toList) (x :: y :: u) =
          x ++ ( "\n".toList ++ List.intercalate ( "\n".toList) (y :: u)) := by
        simp [List.intercalate, List.intersperse_cons₂, List.append_assoc]
      rw [report_text, e]
      have ih' := ih (by simp)
      rw [report_text] at ih'
      rw [List.map_cons, List.flatten_cons, ← ih']
      simp [List.append_assoc]

/-- C8: the number of report lines equals the number of too-large pairs,
every line is `"<stem> | <reason>"` for a too-large pair of the run, and
the report file is overwritten with those newline-terminated lines exactly
when at least one pair was too large (otherwise it is left untouched). -/
theorem skip_report_spec (cfg : Config) (pairs : List (Str × PairEnv)) (prior : Option Str) :
    (main_loop cfg pairs).details.length = (main_loop cfg pairs).too_large ∧
    (∀ line ∈ (main_loop cfg pairs).details, ∃ p r, p ∈ pairs ∧
        (upload_pair cfg p.1 p.2).1 = .error (.tooLarge r) ∧
        line = p.1 ++ " | ".toList ++ r) ∧
    final_report cfg pairs prior =
      (if (main_loop cfg pairs).too_large = 0 then prior
       else some (((main_loop cfg pairs).details.map (fun s => s ++ "\n".toList)).flatten)) := by
  obtain ⟨_, h2⟩ := countP_outcomes_partition cfg pairs
  have hlen : (main_loop cfg pairs).details.length = (main_loop cfg pairs).too_large := by
    rw [main_loop_spec]
    exact h2
  refine ⟨hlen, ?_, ?_⟩
  · intro line hline
    rw [main_loop_spec] at hline
    obtain ⟨p, hp, hlp⟩ := List.mem_filterMap.mp hline
    rcases ho : outcomeOf cfg p with e | u
    · rcases e with r | r
      · rw [lineOf, ho] at hlp
        simp only [Option.some.injEq] at hlp
        exact ⟨p, r, hp, ho, hlp.symm⟩
      · rw [lineOf, ho] at hlp
        simp at hlp
    · rw [lineOf, ho] at hlp
      simp at hlp
  · have efr : final_report cfg pairs prior =
        if (main_loop cfg pairs).details = [] then prior
        else some (report_text (main_loop cfg pairs).details) := rfl
    by_cases hz : (main_loop cfg pairs).details = []
    · have hz' : (main_loop cfg pairs).too_large = 0 := by
        rw [← hlen, hz]
        rfl
      rw [efr, if_pos hz, if_pos hz']
    · have hnz : ¬ (main_loop cfg pairs).too_large = 0 := by
        rw [← hlen]
        simpa using hz
      rw [efr, if_neg hz, if_neg hnz]
      exact congrArg some (report_text_eq _ hz)

/-! ### C3: HTTP error classification -/

/-- C3: an HTTP error with status 413 fails with the distinct too-large
error and the orchestrator counts the pair as skipped-too-large (appending
its report line); any other HTTP error status fails with the generic error
and the orchestrator counts the pair as failed. -/
theorem telegram_call_http_classification (code : Nat) (body : Str) (cfg : Config)
    (st : RunStats) (stem : Str) (env : PairEnv)
    (henv : env.photoResponse = .httpError code body)
    (hb : ¬ env.bookSize > max_file_size_bytes cfg)
    (hi : ¬ env.preparedImageSize > max_file_size_bytes cfg) :
    (code = 413 →
      telegram_call (.httpError code body) =
        .error (.tooLarge ( "HTTP ".toList ++ natStr code ++ ": ".toList ++ body)) ∧
      processPair cfg st (stem, env) =
        { st with
          too_large := st.too_large + 1
          details := st.details ++ [stem ++ " | ".toList
            ++ ( "HTTP ".toList ++ natStr code ++ ": ".toList ++ body)] }) ∧
    (code ≠ 413 →
      telegram_call (.httpError code body) =
        .error (.other ( "HTTP ".toList ++ natStr code ++ ": ".toList ++ body)) ∧
      processPair cfg st (stem, env) = { st with failed := st.failed + 1 }) := by
  constructor
  · intro h
    have ht : telegram_call (.httpError code body) =
        .error (.tooLarge ( "HTTP ".toList ++ natStr code ++ ": ".toList ++ body)) := by
      simp [telegram_call, h]
    refine ⟨ht, ?_⟩
    have ho : outcomeOf cfg (stem, env) =
        .error (.tooLarge ( "HTTP ".toList ++ natStr code ++ ": ".toList ++ body)) := by
      simp [outcomeOf, upload_pair, hb, hi, henv, ht]
    rw [processPair_eq, ho]
  · intro h
    have ht : telegram_call (.httpError code body) =
        .error (.other ( "HTTP ".toList ++ natStr code ++ ": ".toList ++ body)) := by
      simp [telegram_call, h]
    refine ⟨ht, ?_⟩
    have ho : outcomeOf cfg (stem, env) =
        .error (.other ( "HTTP ".toList ++ natStr code ++ ": ".toList ++ body)) := by
      simp [outcomeOf, upload_pair, hb, hi, henv, ht]
    rw [processPair_eq, ho]

/-- C3 witness: status 413 yields the distinct too-large error, status 500
the generic error, at a concrete environment. -/
theorem telegram_call_http_classification_witness :
    telegram_call (.httpError 413 []) =
      .error (.tooLarge ( "HTTP ".toList ++ natStr 413 ++ ": ".toList ++ ([] : Str))) ∧
    telegram_call (.httpError 500 []) =
      .error (.other ( "HTTP ".toList ++ natStr 500 ++ ": ".toList ++ ([] : Str))) :=
  ⟨((telegram_call_http_classification 413 [] (Config.mk 1) initialStats ( "s".toList)
      (PairEnv.mk [] [] 0 0 (.httpError 413 []) (.success (Payload.mk true []))) rfl
      (by decide) (by decide)).1 rfl).1,
   ((telegram_call_http_classification 500 [] (Config.mk 1) initialStats ( "s".toList)
      (PairEnv.mk [] [] 0 0 (.httpError 500 []) (.success (Payload.mk true []))) rfl
      (by decide) (by decide)).2 (by decide)).1⟩

/-! ### C9: document failure after a successful photo -/

/-- C9: when the photo call succeeds and the document call fails with a
non-size error, the pair's outcome is the generic failure (counted as
failed, not uploaded and not too-large), the trace shows the photo call
followed by the document call and nothing else (no rollback or deletion of
the already-sent image), and the run continues with the remaining pairs. -/
theorem doc_failure_counts_failed (cfg : Config) (stem : Str) (env : PairEnv) (st : RunStats)
    (msg : Str)
    (hb : ¬ env.bookSize > max_file_size_bytes cfg)
    (hi : ¬ env.preparedImageSize > max_file_size_bytes cfg)
    (hphoto : ∃ p, telegram_call env.photoResponse = .ok p)
    (hdoc : telegram_call env.docResponse = .error (.other msg)) :
    upload_pair cfg stem env =
      (.error (.other msg),
       [Effect.prepImage env.imagePath, Effect.apiCall ( "sendPhoto".toList),
        Effect.apiCall ( "sendDocument".toList)]) ∧
    processPair cfg st (stem, env) = { st with failed := st.failed + 1 } ∧
    (∀ before after : List (Str × PairEnv),
      main_loop cfg (before ++ (stem, env) :: after) =
        List.foldl (processPair cfg)
          (processPair cfg (List.foldl (processPair cfg) initialStats before)
            (stem, env)) after) := by
  obtain ⟨p, hp⟩ := hphoto
  have h1 : upload_pair cfg stem env =
      (.error (.other msg),
       [Effect.prepImage env.imagePath, Effect.apiCall ( "sendPhoto".toList),
        Effect.apiCall ( "sendDocument".toList)]) := by
    simp [upload_pair, hb, hi, hp, hdoc]
  refine ⟨h1, ?_, ?_⟩
  · have ho : outcomeOf cfg (stem, env) = .error (.other msg) := by
      simp [outcomeOf, h1]
    rw [processPair_eq, ho]
  · intro before after
    rw [main_loop, List.foldl_append, List.foldl_cons]

/-- C9 witness: a concrete pair whose photo call succeeds and whose
document call hits a network error is classified as the generic failure
with the full two-call trace. -/
theorem doc_failure_counts_failed_witness :
    upload_pair (Config.mk 1) ( "s".toList)
        (PairEnv.mk ( "i.png".toList) ( "b.pdf".toList) 10 10
          (.success (Payload.mk true [])) (.urlError [])) =
      (.error (.other ( "Network error: ".toList ++ ([] : Str))),
       [Effect.prepImage ( "i.png".toList), Effect.apiCall ( "sendPhoto".toList),
        Effect.apiCall ( "sendDocument".toList)]) :=
  (doc_failure_counts_failed (Config.mk 1) ( "s".toList)
    (PairEnv.mk ( "i.png".toList) ( "b.pdf".toList) 10 10
      (.success (Payload.mk true [])) (.urlError [])) initialStats
    ( "Network error: ".toList ++ ([] : Str))
    (by decide) (by decide) ⟨Payload.mk true [], rfl⟩ rfl).1

/-! ### C7: the multipart encoder -/

theorem foldl_append_chunks {α : Type} (g : α → List Str) :
    ∀ (l : List α) (init : List Str),
      l.foldl (fun cs x => cs ++ g x) init = init ++ (l.map g).flatten := by
  intro l
  induction l with
  | nil => intro init; simp
  | cons x t ih =>
    intro init
    rw [List.foldl_cons, ih, List.map_cons, List.flatten_cons, List.append_assoc]

theorem flatten_blocks {α : Type} (g : α → List Str) (h : α → Str)
    (hg : ∀ x, (g x).flatten = h x) :
    ∀ l : List α, ((l.map g).flatten).flatten = (l.map h).flatten := by
  intro l
  induction l with
  | nil => simp
  | cons x t ih =>
    rw [List.map_cons, List.flatten_cons, List.flatten_append, ih, hg, List.map_cons,
      List.flatten_cons]

/-- C7: the encoded body is exactly one boundary-delimited part per field
followed by one per file (each file part declaring the basename and the
guessed content type with octet-stream fallback, then the raw bytes),
terminated by the closing boundary marker; and the returned content-type
string embeds the same boundary token. -/
theorem encode_multipart_spec (boundary : Str) (fields : List (Str × Str))
    (files : List FilePart) :
    (encode_multipart boundary fields files).1 = specMultipartBody boundary fields files ∧
    (encode_multipart boundary fields files).2 =
      "multipart/form-data; boundary=".toList ++ boundary ∧
    boundary <:+ (encode_multipart boundary fields files).2 := by
  refine ⟨?_, rfl, ⟨ "multipart/form-data; boundary=".toList, rfl⟩⟩
  have e : (encode_multipart boundary fields files).1 =
      ((files.foldl (fun cs fp => cs ++ fileChunks boundary fp)
        (fields.foldl (fun cs kv => cs ++ fieldChunks boundary kv) []))
        ++ [ "--".toList ++ boundary ++ "--".toList ++ CRLF]).flatten := rfl
  rw [e, foldl_append_chunks, foldl_append_chunks, List.nil_append]
  rw [List.flatten_append, List.flatten_append]
  rw [flatten_blocks (fieldChunks boundary) (specFieldPart boundary)
      (fun kv => by simp [fieldChunks, specFieldPart, List.append_assoc]),
    flatten_blocks (fileChunks boundary) (specFilePart boundary)
      (fun fp => by simp [fileChunks, specFilePart, List.append_assoc])]
  simp [specMultipartBody, specClosing, List.append_assoc]

/-! ### C4 and C5: the pair builder -/

theorem strLeB_total : ∀ x y : Str, strLeB x y = true ∨ strLeB y x = true
  | [], _ => Or.inl rfl
  | _ :: _, [] => Or.inr rfl
  | a :: as, b :: bs => by
    rcases lt_trichotomy a b with h | h | h
    · exact Or.inl (by simp [strLeB, h])
    · subst h
      rcases strLeB_total as bs with h | h
      · exact Or.inl (by simp [strLeB, h])
      · exact Or.inr (by simp [strLeB, h])
    · exact Or.inr (by simp [strLeB, h])

theorem strLeB_trans : ∀ x y z : Str,
    strLeB x y = true → strLeB y z = true → strLeB x z = true
  | [], _, _ => fun _ _ => rfl
  | _ :: _, [], _ => by
    intro h _
    simp [strLeB] at h
  | _ :: _, _ :: _, [] => by
    intro _ h
    simp [strLeB] at h
  | a :: as, b :: bs, c :: cs => by
    intro h1 h2
    simp only [strLeB] at h1 h2 ⊢
    by_cases hab : a < b
    · by_cases hbc : b < c
      · simp [lt_trans hab hbc]
      · by_cases hbc' : b = c
        · subst hbc'
          simp [hab]
        · simp [hbc, hbc'] at h2
    · by_cases hab' : a = b
      · subst hab'
        simp only [lt_irrefl, if_false, if_pos rfl] at h1
        by_cases hbc : a < c
        · simp [hbc]
        · by_cases hbc' : a = c
          · subst hbc'
            simp only [lt_irrefl, if_false, if_pos rfl] at h2 ⊢
            exact strLeB_trans as bs cs h1 h2
          · simp [hbc, hbc'] at h2
      · simp [hab, hab'] at h1

theorem strLeB_antisymm : ∀ x y : Str, strLeB x y = true → strLeB y x = true → x = y
  | [], [], _, _ => rfl
  | [], _ :: _, _, h => by simp [strLeB] at h
  | _ :: _, [], h, _ => by simp [strLeB] at h
  | a :: as, b :: bs, h1, h2 => by
    by_cases hab : a < b
    · have hba : ¬ b < a := lt_asymm hab
      have hne : ¬ b = a := (ne_of_lt hab).symm
      simp [strLeB, hba, hne] at h2
    · by_cases hab' : a = b
      · subst hab'
        simp only [strLeB, lt_irrefl, if_false, if_pos rfl] at h1 h2
        rw [strLeB_antisymm as bs h1 h2]
      · simp [strLeB, hab, hab'] at h1

/-- Two sorted lists that are permutations of each other agree when the
sort key is injective on their elements. -/
theorem sorted_key_unique {α : Type} (key : α → Str) :
    ∀ (l₁ l₂ : List α), l₁.Perm l₂ →
      l₁.Pairwise (keyLe key) → l₂.Pairwise (keyLe key) →
      (∀ a ∈ l₁, ∀ b ∈ l₁, key a = key b → a = b) → l₁ = l₂
  | [], _, hp, _, _, _ => (hp.symm.eq_nil).symm
  | a :: t, l₂, hp, hs₁, hs₂, hinj => by
    cases l₂ with
    | nil => exact absurd hp.eq_nil (by simp)
    | cons b s =>
      have hab : a = b := by
        have ha2 : a ∈ b :: s := hp.subset (List.mem_cons_self a t)
        rcases List.mem_cons.mp ha2 with h | h
        · exact h
        · have hb1 : b ∈ a :: t := hp.symm.subset (List.mem_cons_self b s)
          rcases List.mem_cons.mp hb1 with h' | h'
          · exact h'.symm
          · have hba : keyLe key b a := (List.pairwise_cons.mp hs₂).1 a h
            have hab' : keyLe key a b := (List.pairwise_cons.mp hs₁).1 b h'
            exact hinj a (List.mem_cons_self a t) b (List.mem_cons_of_mem a h')
              (strLeB_antisymm _ _ hab' hba)
      subst hab
      have hp' : t.Perm s := hp.cons_inv
      have ht := sorted_key_unique key t s hp' (List.pairwise_cons.mp hs₁).2
        (List.pairwise_cons.mp hs₂).2
        (fun x hx y hy hxy =>
          hinj x (List.mem_cons_of_mem a hx) y (List.mem_cons_of_mem a hy) hxy)
      rw [ht]

/-- Stable sorting by a key is permutation-invariant when the key is
injective on the list's elements. -/
theorem pysorted_eq_of_perm {α : Type} (key : α → Str) (l₁ l₂ : List α)
    (hp : l₁.Perm l₂) (hinj : ∀ a ∈ l₁, ∀ b ∈ l₁, key a = key b → a = b) :
    pysorted key l₁ = pysorted key l₂ := by
  haveI : IsTotal α (keyLe key) := ⟨fun a b => strLeB_total (key a) (key b)⟩
  haveI : IsTrans α (keyLe key) :=
    ⟨fun a b c hab hbc => strLeB_trans (key a) (key b) (key c) hab hbc⟩
  apply sorted_key_unique key
  · exact (List.perm_insertionSort (keyLe key) l₁).trans
      (hp.trans (List.perm_insertionSort (keyLe key) l₂).symm)
  · exact List.sorted_insertionSort (keyLe key) l₁
  · exact List.sorted_insertionSort (keyLe key) l₂
  · intro x hx y hy hxy
    exact hinj x ((List.perm_insertionSort (keyLe key) l₁).subset hx)
      y ((List.perm_insertionSort (keyLe key) l₁).subset hy) hxy

theorem groupOf_addEntry (m : List (Str × List Str)) (k f q : Str) :
    groupOf (addEntry m k f) q =
      if k = q then groupOf m q ++ [f] else groupOf m q := by
  induction m with
  | nil =>
    by_cases h : k = q <;> simp [addEntry, groupOf, h]
  | cons e rest ih =>
    obtain ⟨k', g⟩ := e
    by_cases h1 : k' = k
    · subst h1
      by_cases h2 : k' = q <;> simp [addEntry, groupOf, h2]
    · by_cases h2 : k' = q
      · subst h2
        have hkq : ¬ k = k' := fun hh => h1 hh.symm
        simp [addEntry, groupOf, h1, hkq]
      · simp [addEntry, groupOf, h1, h2, ih]

theorem mem_keysOf_addEntry (m : List (Str × List Str)) (k f q : Str) :
    q ∈ keysOf (addEntry m k f) ↔ q = k ∨ q ∈ keysOf m := by
  induction m with
  | nil => simp [addEntry, keysOf]
  | cons e rest ih =>
    obtain ⟨k', g⟩ := e
    by_cases h1 : k' = k
    · subst h1
      have e1 : addEntry ((k', g) :: rest) k' f = (k', g ++ [f]) :: rest := by
        simp [addEntry]
      rw [e1]
      simp only [keysOf, List.map_cons, List.mem_cons]
      tauto
    · have e1 : addEntry ((k', g) :: rest) k f = (k', g) :: addEntry rest k f := by
        simp [addEntry, h1]
      rw [e1]
      simp only [keysOf, List.map_cons, List.mem_cons] at ih ⊢
      rw [ih]
      tauto

theorem nodup_keysOf_addEntry (m : List (Str × List Str)) (k f : Str)
    (h : (keysOf m).Nodup) : (keysOf (addEntry m k f)).Nodup := by
  induction m with
  | nil => simp [addEntry, keysOf]
  | cons e rest ih =>
    obtain ⟨k', g⟩ := e
    simp only [keysOf, List.map_cons, List.nodup_cons] at h
    by_cases h1 : k' = k
    · subst h1
      have e1 : addEntry ((k', g) :: rest) k' f = (k', g ++ [f]) :: rest := by
        simp [addEntry]
      rw [e1]
      simp only [keysOf, List.map_cons, List.nodup_cons]
      exact h
    · have e1 : addEntry ((k', g) :: rest) k f = (k', g) :: addEntry rest k f := by
        simp [addEntry, h1]
      rw [e1]
      have htail := ih h.2
      simp only [keysOf, List.map_cons, List.nodup_cons]
      refine ⟨?_, htail⟩
      intro hmem
      rcases (mem_keysOf_addEntry rest k f k').mp hmem with h2 | h2
      · exact h1 h2
      · exact h.1 h2

theorem groupOf_by_stem_aux :
    ∀ (items : List Str) (m : List (Str × List Str)) (q : Str),
      groupOf (items.foldl (fun m p => addEntry m (nstem p) p) m) q =
        groupOf m q ++ items.filter (fun p => decide (nstem p = q)) := by
  intro items
  induction items with
  | nil => intro m q; simp
  | cons p t ih =>
    intro m q
    rw [List.foldl_cons, ih, groupOf_addEntry]
    by_cases h : nstem p = q
    · simp [h, List.filter_cons, List.append_assoc]
    · simp [h, List.filter_cons]

theorem groupOf_by_stem (items : List Str) (q : Str) :
    groupOf (by_stem items) q = items.filter (fun p => decide (nstem p = q)) := by
  rw [by_stem, groupOf_by_stem_aux]
  simp [groupOf]

theorem mem_keysOf_by_stem_aux :
    ∀ (items : List Str) (m : List (Str × List Str)) (q : Str),
      (q ∈ keysOf (items.foldl (fun m p => addEntry m (nstem p) p) m) ↔
        q ∈ keysOf m ∨ q ∈ items.map nstem) := by
  intro items
  induction items with
  | nil => intro m q; simp
  | cons p t ih =>
    intro m q
    rw [List.foldl_cons, ih, mem_keysOf_addEntry]
    simp only [List.map_cons, List.mem_cons]
    tauto

theorem nodup_keysOf_by_stem_aux :
    ∀ (items : List Str) (m : List (Str × List Str)),
      (keysOf m).Nodup →
        (keysOf (items.foldl (fun m p => addEntry m (nstem p) p) m)).Nodup := by
  intro items
  induction items with
  | nil => intro m h; simpa using h
  | cons p t ih =>
    intro m h
    rw [List.foldl_cons]
    exact ih _ (nodup_keysOf_addEntry m (nstem p) p h)

theorem nodup_keysOf_by_stem (items : List Str) : (keysOf (by_stem items)).Nodup :=
  nodup_keysOf_by_stem_aux items [] (by simp [keysOf])

theorem mem_keysOf_by_stem (items : List Str) (q : Str) :
    q ∈ keysOf (by_stem items) ↔ q ∈ items.map nstem := by
  rw [by_stem, mem_keysOf_by_stem_aux]
  simp [keysOf]

/-- `build_pairs` is invariant under permutations of the directory listing,
provided lower-casing is injective on the normalized stems present and two
files of one group never share a lower-cased extension. -/
theorem build_pairs_eq_of_perm (l₁ l₂ : List Str) (hp : l₁.Perm l₂)
    (hstem : ∀ a ∈ l₁, ∀ b ∈ l₁, lowerStr (nstem a) = lowerStr (nstem b) → nstem a = nstem b)
    (hsuf : ∀ a ∈ l₁, ∀ b ∈ l₁, nstem a = nstem b → lowsuf a = lowsuf b → a = b) :
    build_pairs l₁ = build_pairs l₂ := by
  have hpf : (l₁.filter (fun p => decide (p ∉ SCRIPT_FILES))).Perm
      (l₂.filter (fun p => decide (p ∉ SCRIPT_FILES))) := hp.filter _
  set f₁ := l₁.filter (fun p => decide (p ∉ SCRIPT_FILES)) with hf₁
  set f₂ := l₂.filter (fun p => decide (p ∉ SCRIPT_FILES)) with hf₂
  have hmem₁ : ∀ a ∈ f₁, a ∈ l₁ := fun a ha => List.mem_of_mem_filter ha
  have hmem₂ : ∀ a ∈ f₂, a ∈ l₁ := fun a ha => hp.symm.subset (List.mem_of_mem_filter ha)
  have hgroup : ∀ q,
      pysorted lowsuf (groupOf (by_stem f₁) q) =
        pysorted lowsuf (groupOf (by_stem f₂) q) := by
    intro q
    rw [groupOf_by_stem, groupOf_by_stem]
    apply pysorted_eq_of_perm
    · exact hpf.filter _
    · intro a ha b hb hk
      have haq : nstem a = q := by simpa using List.of_mem_filter ha
      have hbq : nstem b = q := by simpa using List.of_mem_filter hb
      exact hsuf a (hmem₁ a (List.mem_of_mem_filter ha)) b
        (hmem₁ b (List.mem_of_mem_filter hb)) (haq.trans hbq.symm) hk
  have hkeys : pysorted lowerStr (keysOf (by_stem f₁)) =
      pysorted lowerStr (keysOf (by_stem f₂)) := by
    apply pysorted_eq_of_perm
    · rw [List.perm_ext_iff_of_nodup (nodup_keysOf_by_stem f₁) (nodup_keysOf_by_stem f₂)]
      intro q
      rw [mem_keysOf_by_stem, mem_keysOf_by_stem]
      exact (hpf.map nstem).mem_iff
    · intro s hs t ht hlow
      obtain ⟨a, ha, rfl⟩ := List.mem_map.mp ((mem_keysOf_by_stem f₁ s).mp hs)
      obtain ⟨b, hb, rfl⟩ := List.mem_map.mp ((mem_keysOf_by_stem f₁ t).mp ht)
      exact hstem a (hmem₁ a ha) b (hmem₁ b hb) hlow
  have e₁ : build_pairs l₁ =
      (pysorted lowerStr (keysOf (by_stem f₁))).foldl (fun acc stem =>
        match (pysorted lowsuf (groupOf (by_stem f₁) stem)).filter isImage,
            (pysorted lowsuf (groupOf (by_stem f₁) stem)).filter (fun p => !(isImage p)) with
        | img :: _, book :: _ => (acc.1 ++ [(stem, img, book)], acc.2)
        | _, _ => (acc.1, acc.2 ++ [stem])) ([], []) := rfl
  have e₂ : build_pairs l₂ =
      (pysorted lowerStr (keysOf (by_stem f₂))).foldl (fun acc stem =>
        match (pysorted lowsuf (groupOf (by_stem f₂) stem)).filter isImage,
            (pysorted lowsuf (groupOf (by_stem f₂) stem)).filter (fun p => !(isImage p)) with
        | img :: _, book :: _ => (acc.1 ++ [(stem, img, book)], acc.2)
        | _, _ => (acc.1, acc.2 ++ [stem])) ([], []) := rfl
  rw [e₁, e₂, hkeys]
  apply List.foldl_ext
  intro acc stem _
  rw [hgroup stem]

/-- C4 counterexample: the claim fails as stated. `"Book.PDF"` and
`"Book.pdf"` share the group `"Book"` and the lower-cased suffix `".pdf"`,
so Python's stable sort keeps them in listing order and the chosen document
depends on the enumeration order of the directory. -/
theorem build_pairs_not_permutation_invariant :
    ([ "Book.PDF".toList, "Book.jpg".toList, "Book.pdf".toList] : List Str).Perm
      [ "Book.pdf".toList, "Book.jpg".toList, "Book.PDF".toList] ∧
    build_pairs [ "Book.PDF".toList, "Book.jpg".toList, "Book.pdf".toList] ≠
      build_pairs [ "Book.pdf".toList, "Book.jpg".toList, "Book.PDF".toList] := by
  constructor
  · decide
  · decide

/-- C4 (amended): `build_pairs` returns the same pairs and the same missing
list for every enumeration order of the same files, provided no two files
whose normalized stems coincide after lower-casing have distinct normalized
stems, and no two distinct files of the same normalized-stem group share a
lower-cased extension (with ties, Python's stable sort makes the chosen
file depend on the enumeration order). -/
theorem build_pairs_deterministic (l₁ l₂ : List Str) (hp : l₁.Perm l₂)
    (hstem : ∀ a ∈ l₁, ∀ b ∈ l₁, lowerStr (nstem a) = lowerStr (nstem b) → nstem a = nstem b)
    (hsuf : ∀ a ∈ l₁, ∀ b ∈ l₁, nstem a = nstem b → lowsuf a = lowsuf b → a = b) :
    build_pairs l₁ = build_pairs l₂ :=
  build_pairs_eq_of_perm l₁ l₂ hp hstem hsuf

/-- C4 witness: two enumeration orders of a tie-free directory produce the
same pairs. -/
theorem build_pairs_deterministic_witness :
    build_pairs [ "A.jpg".toList, "A.pdf".toList] =
      build_pairs [ "A.pdf".toList, "A.jpg".toList] :=
  build_pairs_deterministic [ "A.jpg".toList, "A.pdf".toList]
    [ "A.pdf".toList, "A.jpg".toList] (by decide) (by decide) (by decide)

/-- C5: for any enumeration of exactly the files `Alpha.jpg`, `Alpha.epub`,
`Beta.cover.png`, `Beta.pdf`, `Gamma.epub`, the pair builder yields the
pairs `(Alpha, Alpha.jpg, Alpha.epub)` and `(Beta, Beta.cover.png,
Beta.pdf)` in that order, and `Gamma` as the only missing stem. -/
theorem build_pairs_sample (l : List Str) (hp : l.Perm sampleFiles) :
    build_pairs l =
      ([( "Alpha".toList, "Alpha.jpg".toList, "Alpha.epub".toList),
        ( "Beta".toList, "Beta.cover.png".toList, "Beta.pdf".toList)],
       [ "Gamma".toList]) := by
  have hstem : ∀ a ∈ sampleFiles, ∀ b ∈ sampleFiles,
      lowerStr (nstem a) = lowerStr (nstem b) → nstem a = nstem b := by decide
  have hsuf : ∀ a ∈ sampleFiles, ∀ b ∈ sampleFiles,
      nstem a = nstem b → lowsuf a = lowsuf b → a = b := by decide
  have h1 : build_pairs l = build_pairs sampleFiles := by
    apply build_pairs_eq_of_perm l sampleFiles hp
    · intro a ha b hb
      exact hstem a (hp.subset ha) b (hp.subset hb)
    · intro a ha b hb
      exact hsuf a (hp.subset ha) b (hp.subset hb)
  rw [h1]
  decide

/-- C5 witness: the canonical enumeration order itself. -/
theorem build_pairs_sample_witness :
    build_pairs sampleFiles =
      ([( "Alpha".toList, "Alpha.jpg".toList, "Alpha.epub".toList),
        ( "Beta".toList, "Beta.cover.png".toList, "Beta.pdf".toList)],
       [ "Gamma".toList]) :=
  build_pairs_sample sampleFiles (List.Perm.refl sampleFiles)

end UploadToChannel
